import Mathlib

/-!
# Verification of the splicing-quantification pipeline

A shallow embedding of the core logic of the `splicing_quantification`
repository, together with theorems settling the specification claims.

Embedding conventions, used throughout:

* Data-frame rows become Lean structures; a data frame becomes a `List` of
  rows, preserving the frame's row order.
* Python `float` columns that can hold `NaN` (missing values) are embedded
  as `Option ℚ`: `none` is `NaN`/missing, and arithmetic on `none`
  propagates `none`, mirroring IEEE `NaN` propagation under `+`, `-`
  and mean computation with `skipna`.
* `pandas.to_numeric(..., errors='coerce')` becomes a parse to
  `Option ℤ`; IEEE comparisons `x >= NaN` / `x <= NaN`, which are always
  `False`, become comparisons against `none` that return `false`.
* Python's `','.join(tokens)` becomes `joinComma`, and the source's
  `join(...) + ','` becomes `joinComma tokens ++ ","`.
-/

namespace SpliceQuant

/-- Python `','.join(tokens)`: concatenate string tokens with a comma
between consecutive tokens (no trailing separator). -/
def joinComma : List String → String
  | [] => ""
  | [t] => t
  | t :: t2 :: ts => t ++ "," ++ joinComma (t2 :: ts)

/-- `NaN`-propagating addition on embedded floats: Python `a + b` where
either side may be `NaN` (`none`). -/
def optAdd : Option ℚ → Option ℚ → Option ℚ
  | some a, some b => some (a + b)
  | _, _ => none

/-- Mean of a list of possibly-missing values, skipping the missing ones;
`none` when every value is missing.  This is `pandas` `mean(skipna=True)`
on a row of replicate columns, and also the mean inside
`safe_psi_calculation` in `process_rmats_psi.py`. -/
def meanSkipNA (vals : List (Option ℚ)) : Option ℚ :=
  let valid := vals.filterMap id
  if valid.isEmpty then none else some (valid.sum / valid.length)

/-! ## Interval Join Engine and Splice Table Assembler

From `src/leafcutter_to_splice_table.py` (functions `process_row` and
`process_splice_table`) and `src/rmats_to_splice_table.py`
(`process_rmats_splice_table`). -/

/-- One normalized LeafCutter observation row of the per-site PSI CSV read
by `leafcutter_to_splice_table.py`: the columns `chromosome`, `position`,
`psi` that `process_row` touches.  `psi` is kept as the serialized token
the CSV cell carries, since `process_row` only passes it through `str`. -/
structure Obs where
  chromosome : String
  position : ℤ
  psi : String
deriving DecidableEq, Repr

/-- One splice-table row as read headerless (`header=None`) by the
LeafCutter/rMATS assemblers; field names follow the output schema
(columns 0..7 of the file).  `tx_start`/`tx_end` are kept as the raw text
of columns 4 and 5, coerced to numbers by the assembler itself. -/
structure SpliceRow where
  transcript_id : String
  paralog_status : String
  seqname : String
  strand : String
  tx_start : String
  tx_end : String
  exon_end_sites : String
  exon_start_sites : String
deriving DecidableEq, Repr

/-- Numeric value of a decimal digit character, `none` otherwise. -/
def digitVal (c : Char) : Option ℕ :=
  if '0' ≤ c && c ≤ '9' then some (c.toNat - '0'.toNat) else none

/-- Parse a nonempty all-digit character list as a natural number. -/
def parseNatChars : List Char → ℕ → Option ℕ
  | [], acc => some acc
  | c :: cs, acc =>
    match digitVal c with
    | some d => parseNatChars cs (10 * acc + d)
    | none => none

/-- `pd.to_numeric(col, errors='coerce')` on one cell, modelled as a plain
decimal integer parser: an unparseable cell becomes `NaN`, embedded as
`none`. -/
def toNumericCoerce (s : String) : Option ℤ :=
  match s.toList with
  | [] => none
  | '-' :: cs =>
    if cs.isEmpty then none
    else (parseNatChars cs 0).map fun n => -(n : ℤ)
  | cs => (parseNatChars cs 0).map fun n => (n : ℤ)

/-- `position >= tx_start` where `tx_start` may be `NaN`: IEEE comparison
against `NaN` is `False`. -/
def geNA (p : ℤ) : Option ℤ → Bool
  | none => false
  | some v => decide (v ≤ p)

/-- `position <= tx_end` where `tx_end` may be `NaN`. -/
def leNA (p : ℤ) : Option ℤ → Bool
  | none => false
  | some v => decide (p ≤ v)

/-- The boolean mask of `process_row`:
`(df['chromosome'] == current_chromosome) & (df['position'] >= tx_start) &
(df['position'] <= tx_end)`. -/
def matchMask (chrom : String) (txStart txEnd : Option ℤ) (o : Obs) : Bool :=
  o.chromosome == chrom && geNA o.position txStart && leNA o.position txEnd

/-- Boolean-mask row selection `df[mask]` of pandas: keep the rows whose
mask entry is `true`, in frame order. -/
def maskSelect (l : List Obs) (mask : List Bool) : List Obs :=
  (l.zip mask).filterMap fun p => if p.2 then some p.1 else none

/-- `matching_rows` of `process_row` in `leafcutter_to_splice_table.py`. -/
def matchingRows (chrom : String) (txStart txEnd : Option ℤ) (df : List Obs) :
    List Obs :=
  maskSelect df (df.map (matchMask chrom txStart txEnd))

/-- `process_row` of `leafcutter_to_splice_table.py`: serialize the
matching rows' positions and PSI values as comma-joined strings with a
trailing comma. -/
def process_row (row : SpliceRow) (df : List Obs) : String × String :=
  let m := matchingRows row.seqname (toNumericCoerce row.tx_start)
      (toNumericCoerce row.tx_end) df
  (joinComma (m.map fun o => toString o.position) ++ ",",
   joinComma (m.map fun o => o.psi) ++ ",")

/-- A splice-table row together with its computed `positions` and `PSI`
columns. -/
def AnnotatedRow : Type := SpliceRow × String × String

instance : DecidableEq AnnotatedRow := by
  unfold AnnotatedRow; infer_instance

/-- Attach the `positions`/`PSI` columns to one row. -/
def annotateRow (df : List Obs) (row : SpliceRow) : AnnotatedRow :=
  (row, process_row row df)

/-- The final filter of `process_splice_table`: drop rows whose
`positions` or `PSI` cell is a bare comma
(`~isin([','])` on both columns, conjoined). -/
def keepRow (x : AnnotatedRow) : Bool :=
  !(x.2.1 == ",") && !(x.2.2 == ",")

/-- `process_splice_table` of `leafcutter_to_splice_table.py`, sequential
view: annotate every row, then drop the bare-comma rows.  (The thread-pool
realization is modelled below and proved equal.) -/
def process_splice_table (df : List Obs) (table : List SpliceRow) :
    List AnnotatedRow :=
  (table.map (annotateRow df)).filter keepRow

/-! Lemmas about the mask-selection embedding. -/

theorem maskSelect_map_eq_filter (p : Obs → Bool) :
    ∀ l : List Obs, maskSelect l (l.map p) = l.filter p := by
  intro l
  induction l with
  | nil => rfl
  | cons a l ih =>
    simp only [maskSelect, List.map_cons, List.zip_cons_cons,
      List.filterMap_cons, List.filter_cons]
    cases h : p a <;> simp [maskSelect] at ih ⊢ <;> rw [ih]

theorem matchingRows_eq_filter (chrom : String) (s e : Option ℤ)
    (df : List Obs) :
    matchingRows chrom s e df = df.filter (matchMask chrom s e) :=
  maskSelect_map_eq_filter _ df

/-! ## Facts about serialized integer tokens

`process_row` serializes positions via Python `str`, embedded as
`toString : ℤ → String`.  The claims about bare-comma rows and about the
comma-count filter need that such a token is never empty and never
contains a comma. -/

theorem digitChar_of_ge (n : ℕ) (h : 16 ≤ n) : Nat.digitChar n = '*' := by
  unfold Nat.digitChar
  repeat rw [if_neg (by omega)]

theorem digitChar_ne_comma (n : ℕ) : Nat.digitChar n ≠ ',' := by
  rcases lt_or_ge n 16 with h | h
  · interval_cases n <;> decide
  · rw [digitChar_of_ge n h]; decide

theorem length_le_toDigitsCore (b : ℕ) : ∀ (fuel n : ℕ) (ds : List Char),
    ds.length ≤ (Nat.toDigitsCore b fuel n ds).length := by
  intro fuel
  induction fuel with
  | zero => intro n ds; rw [Nat.toDigitsCore]
  | succ fuel ih =>
    intro n ds
    rw [Nat.toDigitsCore]
    split
    · simp
    · calc ds.length ≤ (List.length (Nat.digitChar (n % b) :: ds)) := by simp
        _ ≤ _ := ih _ _

theorem toDigitsCore_ne_comma (b : ℕ) : ∀ (fuel n : ℕ) (ds : List Char),
    (∀ c ∈ ds, c ≠ ',') → ∀ c ∈ Nat.toDigitsCore b fuel n ds, c ≠ ',' := by
  intro fuel
  induction fuel with
  | zero => intro n ds h; rw [Nat.toDigitsCore]; exact h
  | succ fuel ih =>
    intro n ds h
    rw [Nat.toDigitsCore]
    have h2 : ∀ c ∈ Nat.digitChar (n % b) :: ds, c ≠ ',' := by
      intro c hc
      rcases List.mem_cons.mp hc with rfl | hc
      · exact digitChar_ne_comma _
      · exact h c hc
    split
    · exact h2
    · exact ih _ _ h2

theorem natRepr_data (n : ℕ) : (Nat.repr n).data = Nat.toDigits 10 n := rfl

theorem one_le_length_natRepr (n : ℕ) : 1 ≤ (Nat.repr n).data.length := by
  rw [natRepr_data, Nat.toDigits, Nat.toDigitsCore]
  split
  · simp
  · calc 1 = (List.length [Nat.digitChar (n % 10)]) := by simp
      _ ≤ _ := length_le_toDigitsCore 10 _ _ _

theorem natRepr_ne_comma (n : ℕ) : ∀ c ∈ (Nat.repr n).data, c ≠ ',' := by
  rw [natRepr_data, Nat.toDigits]
  exact toDigitsCore_ne_comma 10 _ _ _ (by simp)

theorem intRepr_ne_empty (i : ℤ) : Int.repr i ≠ "" := by
  intro h
  have hd : (Int.repr i).data = [] := by rw [h]
  cases i with
  | ofNat n =>
    have := one_le_length_natRepr n
    rw [show (Int.repr (Int.ofNat n)).data = (Nat.repr n).data from rfl] at hd
    simp [hd] at this
  | negSucc n =>
    have : (Int.repr (Int.negSucc n)).data = '-' :: (Nat.repr (n + 1)).data := by
      show ("-" ++ Nat.repr (n + 1)).data = _
      rw [String.data_append]
      rfl
    rw [this] at hd
    exact List.cons_ne_nil _ _ hd

theorem intRepr_ne_comma (i : ℤ) : ∀ c ∈ (Int.repr i).data, c ≠ ',' := by
  cases i with
  | ofNat n => exact natRepr_ne_comma n
  | negSucc n =>
    have : (Int.repr (Int.negSucc n)).data = '-' :: (Nat.repr (n + 1)).data := by
      show ("-" ++ Nat.repr (n + 1)).data = _
      rw [String.data_append]
      rfl
    rw [this]
    intro c hc
    rcases List.mem_cons.mp hc with rfl | hc
    · decide
    · exact natRepr_ne_comma _ c hc

theorem intToString_eq_repr (i : ℤ) : toString i = Int.repr i := rfl

theorem intToString_ne_empty (i : ℤ) : toString i ≠ "" :=
  intRepr_ne_empty i

/-! Facts about `joinComma` serialization. -/

theorem ne_nil_data_of_ne_empty {s : String} (h : s ≠ "") : s.data ≠ [] := by
  intro hd
  exact h (String.ext_iff.mpr (by simpa using hd))

theorem length_le_joinComma (t : String) (ts : List String) :
    t.length ≤ (joinComma (t :: ts)).length := by
  cases ts with
  | nil => simp [joinComma]
  | cons t2 ts =>
    show t.length ≤ (t ++ "," ++ joinComma (t2 :: ts)).length
    rw [String.length_append, String.length_append]
    omega

/-- A joined token list with trailing comma collapses to a bare comma
exactly when the token list is empty, provided the tokens themselves are
nonempty strings. -/
theorem joinComma_trail_ne_comma {t : String} (ts : List String)
    (ht : t ≠ "") : joinComma (t :: ts) ++ "," ≠ "," := by
  intro h
  have hlen : (joinComma (t :: ts) ++ ",").length = ("," : String).length := by
    rw [h]
  rw [String.length_append] at hlen
  have h1 : 1 ≤ t.length := List.length_pos.mpr (ne_nil_data_of_ne_empty ht)
  have h2 := length_le_joinComma t ts
  have hcomma : ("," : String).length = 1 := by decide
  omega

theorem joinComma_nil_trail : joinComma [] ++ "," = "," := rfl

/-! ## Third-party splice-efficiency assembler

From `src/spliser_to_splice_table.py`.  Its `main` reads the splice table
with `pd.read_csv(..., sep='\t')` — with a default header, unlike the
headerless readers of the other two assemblers — computes per-site mean
SSE values, and joins them to the transcript spans. -/

/-- One row of the spliser output table: identifying columns plus the
per-replicate `SSE`/`alpha`/`beta` columns (suffix-matched in the source),
embedded as possibly-missing rationals. -/
structure SpliserSite where
  Region : String
  Site : ℤ
  Strand : String
  Gene : String
  sse_reps : List (Option ℚ)
  alpha_reps : List (Option ℚ)
  beta_reps : List (Option ℚ)
deriving DecidableEq

/-- `spliser_output['mean_SSE'] = spliser_output[sse_columns].mean(axis=1,
skipna=True)`. -/
def mean_SSE (s : SpliserSite) : Option ℚ := meanSkipNA s.sse_reps

/-- `mean_sse_df_clean = mean_sse_df.dropna(subset=['mean_SSE'])`. -/
def mean_sse_df_clean (l : List SpliserSite) : List SpliserSite :=
  l.filter fun s => (mean_SSE s).isSome

/-- Python `str` of an embedded float that is known to be present,
rendered from the rational; the claims depend only on the token being a
nonempty string, never on the exact decimal formatting. -/
def ratStr (q : ℚ) : String :=
  if q.den = 1 then toString q.num else toString q.num ++ "/" ++ toString q.den

theorem ratStr_ne_empty (q : ℚ) : ratStr q ≠ "" := by
  unfold ratStr
  split
  · exact intToString_ne_empty _
  · intro h
    have hlen := congrArg String.length h
    rw [String.length_append, String.length_append] at hlen
    have h2 : 0 < (toString q.num).length :=
      List.length_pos.mpr (ne_nil_data_of_ne_empty (intToString_ne_empty q.num))
    have h0 : ("" : String).length = 0 := rfl
    omega

/-- One splice-table row as read by the spliser assembler.  Because the
file is read with an inferred header, the numeric columns arrive already
typed, so `tx_start`/`tx_end` are integers here (no `to_numeric`
coercion exists in this script). -/
structure SpRow where
  transcript_id : String
  paralog_status : String
  seqname : String
  strand : String
  tx_start : ℤ
  tx_end : ℤ
  exon_end_sites : String
  exon_start_sites : String
deriving DecidableEq

/-- `filtered_sse` of `process_row` in `spliser_to_splice_table.py`:
same-chromosome sites within the transcript span. -/
def spliser_filtered (row : SpRow) (clean : List SpliserSite) :
    List SpliserSite :=
  clean.filter fun s =>
    s.Region == row.seqname && decide (row.tx_start ≤ s.Site) &&
      decide (s.Site ≤ row.tx_end)

/-- `process_row` of `spliser_to_splice_table.py`: comma-joined
`splice_sites` and `SSE_values` with trailing commas. -/
def spliser_process_row (row : SpRow) (clean : List SpliserSite) :
    String × String :=
  let filtered := spliser_filtered row clean
  (joinComma (filtered.map fun s => toString s.Site) ++ ",",
   joinComma (filtered.map fun s => ratStr ((mean_SSE s).getD 0)) ++ ",")

/-- The spliser assembler's final filter keeps a row when
`splice_sites != ','` **or** `SSE_values != ','` (source line
`(splice_table['splice_sites'] != ',') | (splice_table['SSE_values'] != ',')`). -/
def spliser_keep (x : SpRow × String × String) : Bool :=
  !(x.2.1 == ",") || !(x.2.2 == ",")

/-- Annotate-and-filter over a given row list (the body of `main` after
the table has been read). -/
def spliser_assemble (clean : List SpliserSite) (rows : List SpRow) :
    List (SpRow × String × String) :=
  (rows.map fun r => (r, spliser_process_row r clean)).filter spliser_keep

/-- The spliser assembler end to end on the splice-table file's records:
`pd.read_csv` with an inferred header consumes the first record as column
names, so only the tail is processed. -/
def spliser_main (clean : List SpliserSite) (table : List SpRow) :
    List (SpRow × String × String) :=
  spliser_assemble clean table.tail

/-- The interval-join result for one leafcutter/rMATS splice-table row. -/
def rowMatches (row : SpliceRow) (df : List Obs) : List Obs :=
  matchingRows row.seqname (toNumericCoerce row.tx_start)
    (toNumericCoerce row.tx_end) df

theorem process_row_of_no_match {row : SpliceRow} {df : List Obs}
    (h : rowMatches row df = []) : process_row row df = (",", ",") := by
  unfold process_row
  rw [show matchingRows row.seqname (toNumericCoerce row.tx_start)
    (toNumericCoerce row.tx_end) df = rowMatches row df from rfl, h]
  rfl

theorem keepRow_of_no_match {row : SpliceRow} {df : List Obs}
    (h : rowMatches row df = []) : keepRow (annotateRow df row) = false := by
  show keepRow (row, process_row row df) = false
  rw [process_row_of_no_match h]
  rfl

theorem spliser_keep_of_no_match {row : SpRow} {clean : List SpliserSite}
    (h : spliser_filtered row clean = []) :
    spliser_keep (row, spliser_process_row row clean) = false := by
  show spliser_keep (row,
      (joinComma ((spliser_filtered row clean).map fun s => toString s.Site)
        ++ ",",
       joinComma ((spliser_filtered row clean).map fun s =>
        ratStr ((mean_SSE s).getD 0)) ++ ",")) = false
  rw [h]
  rfl

theorem process_row_fst_ne_comma {row : SpliceRow} {df : List Obs}
    (h : rowMatches row df ≠ []) : (process_row row df).1 ≠ "," := by
  unfold process_row
  rw [show matchingRows row.seqname (toNumericCoerce row.tx_start)
    (toNumericCoerce row.tx_end) df = rowMatches row df from rfl]
  rcases hm : rowMatches row df with _ | ⟨o, os⟩
  · exact absurd hm h
  · exact joinComma_trail_ne_comma _ (intToString_ne_empty o.position)

theorem process_row_snd_ne_comma {row : SpliceRow} {df : List Obs}
    (hdf : ∀ o ∈ df, o.psi ≠ "") (h : rowMatches row df ≠ []) :
    (process_row row df).2 ≠ "," := by
  unfold process_row
  rw [show matchingRows row.seqname (toNumericCoerce row.tx_start)
    (toNumericCoerce row.tx_end) df = rowMatches row df from rfl]
  rcases hm : rowMatches row df with _ | ⟨o, os⟩
  · exact absurd hm h
  · have ho : o ∈ df := by
      have : o ∈ rowMatches row df := by rw [hm]; exact List.mem_cons_self o os
      have hsub : (rowMatches row df).Sublist df := by
        rw [rowMatches, matchingRows_eq_filter]
        exact List.filter_sublist df
      exact hsub.mem this
    exact joinComma_trail_ne_comma _ (hdf o ho)

/-- **C7**: a transcript row whose interval join yields zero matching
observations (serialized `positions`/`psi_values` equal to a bare comma)
is absent from the emitted table, and every row with at least one match is
emitted — for the LeafCutter/rMATS assembler and for the spliser
assembler.  The emission direction assumes the observation table's psi
tokens are nonempty strings, as serialized floats always are. -/
theorem C7_zero_match_rows_dropped
    (df : List Obs) (table : List SpliceRow) (r : SpliceRow)
    (clean : List SpliserSite) (spTable : List SpRow) (sr : SpRow)
    (hdf : ∀ o ∈ df, o.psi ≠ "") :
    ((rowMatches r df = [] → ∀ x ∈ process_splice_table df table, x.1 ≠ r) ∧
     (r ∈ table → rowMatches r df ≠ [] →
       annotateRow df r ∈ process_splice_table df table)) ∧
    ((spliser_filtered sr clean = [] →
       ∀ x ∈ spliser_assemble clean spTable, x.1 ≠ sr) ∧
     (sr ∈ spTable → spliser_filtered sr clean ≠ [] →
       (sr, spliser_process_row sr clean) ∈ spliser_assemble clean spTable)) := by
  constructor
  · constructor
    · intro hm x hx hxr
      unfold process_splice_table at hx
      obtain ⟨hx1, hx2⟩ := List.mem_filter.mp hx
      obtain ⟨u, hu, rfl⟩ := List.mem_map.mp hx1
      have hur : u = r := hxr
      rw [hur] at hx2
      rw [keepRow_of_no_match hm] at hx2
      exact Bool.false_ne_true hx2
    · intro hr hm
      unfold process_splice_table
      refine List.mem_filter.mpr ⟨List.mem_map.mpr ⟨r, hr, rfl⟩, ?_⟩
      have h1 := process_row_fst_ne_comma hm
      have h2 := process_row_snd_ne_comma hdf hm
      show (!((process_row r df).1 == ",") &&
        !((process_row r df).2 == ",")) = true
      simp only [Bool.and_eq_true, Bool.not_eq_true', beq_eq_false_iff_ne]
      exact ⟨h1, h2⟩
  · constructor
    · intro hm x hx hxr
      unfold spliser_assemble at hx
      obtain ⟨hx1, hx2⟩ := List.mem_filter.mp hx
      obtain ⟨u, hu, rfl⟩ := List.mem_map.mp hx1
      have hur : u = sr := hxr
      rw [hur] at hx2
      rw [spliser_keep_of_no_match hm] at hx2
      exact Bool.false_ne_true hx2
    · intro hr hm
      unfold spliser_assemble
      refine List.mem_filter.mpr ⟨List.mem_map.mpr ⟨sr, hr, rfl⟩, ?_⟩
      rcases hf : spliser_filtered sr clean with _ | ⟨s, ss⟩
      · exact absurd hf hm
      · have h1 : (spliser_process_row sr clean).1 ≠ "," := by
          show joinComma ((spliser_filtered sr clean).map fun s =>
            toString s.Site) ++ "," ≠ ","
          rw [hf]
          exact joinComma_trail_ne_comma _ (intToString_ne_empty s.Site)
        show (!((spliser_process_row sr clean).1 == ",") ||
          !((spliser_process_row sr clean).2 == ",")) = true
        simp only [Bool.or_eq_true, Bool.not_eq_true', beq_eq_false_iff_ne]
        exact Or.inl h1

/-- Closed witness for `C7_zero_match_rows_dropped` at a concrete input:
a one-observation table and a matching transcript row. -/
theorem C7_zero_match_rows_dropped_witness :
    (∀ o ∈ [Obs.mk "chr1" 150 "0.2"], o.psi ≠ "") ∧
    (SpliceRow.mk "T1" "0" "chr1" "+" "100" "500" "," "," ∈
        [SpliceRow.mk "T1" "0" "chr1" "+" "100" "500" "," ","] →
      rowMatches (SpliceRow.mk "T1" "0" "chr1" "+" "100" "500" "," ",")
          [Obs.mk "chr1" 150 "0.2"] ≠ [] →
      annotateRow [Obs.mk "chr1" 150 "0.2"]
          (SpliceRow.mk "T1" "0" "chr1" "+" "100" "500" "," ",") ∈
        process_splice_table [Obs.mk "chr1" 150 "0.2"]
          [SpliceRow.mk "T1" "0" "chr1" "+" "100" "500" "," ","]) := by
  refine ⟨by decide, ?_⟩
  exact (C7_zero_match_rows_dropped [Obs.mk "chr1" 150 "0.2"]
    [SpliceRow.mk "T1" "0" "chr1" "+" "100" "500" "," ","]
    (SpliceRow.mk "T1" "0" "chr1" "+" "100" "500" "," ",") [] []
    (SpRow.mk "T1" "0" "chr1" "+" 100 500 "," ",") (by decide)).1.2

/-- Dropping, from the input table, a row whose annotated form the final
filter discards anyway does not change the assembler output. -/
theorem process_splice_table_filter_dropped (df : List Obs) (r : SpliceRow)
    (hk : keepRow (annotateRow df r) = false) :
    ∀ table : List SpliceRow,
      process_splice_table df table =
        process_splice_table df (table.filter fun u => !(u == r)) := by
  intro table
  induction table with
  | nil => rfl
  | cons u us ih =>
    unfold process_splice_table at ih ⊢
    by_cases hu : u = r
    · rw [hu]
      rw [List.map_cons, List.filter_cons, hk, if_neg Bool.false_ne_true]
      rw [show (List.filter (fun u => !(u == r)) (r :: us))
          = List.filter (fun u => !(u == r)) us by
        rw [List.filter_cons]
        simp]
      exact ih
    · have hne : (!(u == r)) = true := by simp [hu]
      rw [List.filter_cons, hne, if_pos rfl, List.map_cons, List.filter_cons,
        List.map_cons, List.filter_cons, ih]

/-- **C8**: a splice-table row whose `tx_start` or `tx_end` fails the
numeric coercion matches no observation (comparisons against `NaN` are
false), is absent from the output, and removing it from the input leaves
the output unchanged — the run completes and every other transcript is
processed as usual. -/
theorem C8_unparseable_bounds_skipped (df : List Obs)
    (table : List SpliceRow) (r : SpliceRow)
    (h : toNumericCoerce r.tx_start = none ∨ toNumericCoerce r.tx_end = none) :
    rowMatches r df = [] ∧
    (∀ x ∈ process_splice_table df table, x.1 ≠ r) ∧
    process_splice_table df table =
      process_splice_table df (table.filter fun u => !(u == r)) := by
  have hm : rowMatches r df = [] := by
    rw [rowMatches, matchingRows_eq_filter]
    rw [List.filter_eq_nil_iff]
    intro o _
    rcases h with h | h <;> simp [matchMask, h, geNA, leNA]
  refine ⟨hm, ?_, ?_⟩
  · intro x hx hxr
    unfold process_splice_table at hx
    obtain ⟨hx1, hx2⟩ := List.mem_filter.mp hx
    obtain ⟨u, hu, rfl⟩ := List.mem_map.mp hx1
    have hur : u = r := hxr
    rw [hur] at hx2
    rw [keepRow_of_no_match hm] at hx2
    exact Bool.false_ne_true hx2
  · exact process_splice_table_filter_dropped df r (keepRow_of_no_match hm) table

/-- Closed witness for `C8_unparseable_bounds_skipped`: a row whose
`tx_start` is the non-numeric text `x` is dropped while the table keeps
being processed. -/
theorem C8_unparseable_bounds_skipped_witness :
    (toNumericCoerce (SpliceRow.mk "T1" "0" "chr1" "+" "x" "500" "," ",").tx_start
        = none ∨
     toNumericCoerce (SpliceRow.mk "T1" "0" "chr1" "+" "x" "500" "," ",").tx_end
        = none) ∧
    rowMatches (SpliceRow.mk "T1" "0" "chr1" "+" "x" "500" "," ",")
      [Obs.mk "chr1" 150 "0.2"] = [] := by
  refine ⟨Or.inl (by decide), ?_⟩
  exact (C8_unparseable_bounds_skipped [Obs.mk "chr1" 150 "0.2"]
    [SpliceRow.mk "T1" "0" "chr1" "+" "x" "500" "," ","]
    (SpliceRow.mk "T1" "0" "chr1" "+" "x" "500" "," ",")
    (Or.inl (by decide))).1

/-! ## rMATS adapter: A5SS splice-site extraction

From `src/process_rmats_psi.py` (`extract_splice_sites`, branch
`event_type == 'A5SS'`).  One input row is one A5SS event; `IncLevel1` is
the comma-separated per-replicate inclusion list, embedded as
`List (Option ℚ)` with `NA` tokens as `none`. -/

/-- One row of `A5SS.MATS.JC.txt` (the columns the A5SS branch reads). -/
structure A5Row where
  ID : String
  geneSymbol : String
  chr : String
  strand : String
  longExonStart_0base : ℤ
  longExonEnd : ℤ
  shortES : ℤ
  shortEE : ℤ
  IncLevel1 : List (Option ℚ)
  FDR : ℚ

/-- `safe_psi_calculation('IncLevel1')`: mean of the valid replicate
values, `None` when every token is `NA`. -/
def psi_1 (r : A5Row) : Option ℚ := meanSkipNA r.IncLevel1

/-- `df['skip_psi_1'] = df['psi_1'].apply(lambda x: 1 - x if x is not
None else None)`. -/
def skip_psi_1 (r : A5Row) : Option ℚ := (psi_1 r).map fun x => 1 - x

/-- One extracted splice-site record (one row of the per-event-type
result frame). -/
structure SpliceSiteRec where
  ID : String
  geneSymbol : String
  chr : String
  strand : String
  splice_site : ℤ
  site_type : String
  event_type : String
  form_type : String
  psi_1 : Option ℚ
  FDR : ℚ

/-- The A5SS `donor_df` row: inclusion donor at `longExonStart_0base`,
PSI forced to `1` on the `+` strand (present in both forms), computed
`psi_1` otherwise. -/
def a5ss_donor_row (r : A5Row) : SpliceSiteRec :=
  ⟨r.ID, r.geneSymbol, r.chr, r.strand, r.longExonStart_0base, "donor",
    "A5SS", "inclusion",
    if r.strand == "+" then some 1 else psi_1 r, r.FDR⟩

/-- The A5SS `acceptor_df_incl` row: inclusion acceptor at `longExonEnd`,
PSI forced to `1` on the `-` strand, computed `psi_1` otherwise. -/
def a5ss_acceptor_incl_row (r : A5Row) : SpliceSiteRec :=
  ⟨r.ID, r.geneSymbol, r.chr, r.strand, r.longExonEnd, "acceptor",
    "A5SS", "inclusion",
    if r.strand == "-" then some 1 else psi_1 r, r.FDR⟩

/-- The A5SS `acceptor_df_skip` row: skip acceptor at `shortES` on `-`,
`shortEE` otherwise, carrying `skip_psi_1`. -/
def a5ss_acceptor_skip_row (r : A5Row) : SpliceSiteRec :=
  ⟨r.ID, r.geneSymbol, r.chr, r.strand,
    if r.strand == "-" then r.shortES else r.shortEE, "acceptor",
    "A5SS", "skip", skip_psi_1 r, r.FDR⟩

/-- `extract_splice_sites('A5SS', ...)`:
`pd.concat([donor_df, acceptor_df_incl, acceptor_df_skip])`. -/
def extract_splice_sites_A5SS (rows : List A5Row) : List SpliceSiteRec :=
  rows.map a5ss_donor_row ++ rows.map a5ss_acceptor_incl_row ++
    rows.map a5ss_acceptor_skip_row

/-! ## LeafCutter adapter: cluster-level PSI accumulation

From `src/process_leafcutter_psi.py` (`process_leafcutter_data`).  Each
input row is one intron: the decoded key fields plus one PSI column per
replicate.  The accumulator is a Python dict keyed by
`(cluster_id, position, type)`; a dict with insertion order is embedded
as an association list to which new keys are appended. -/

/-- One decoded intron row of the LeafCutter PSI table. -/
structure LCIntron where
  intron_info : String
  chromosome : String
  strand : String
  cluster_id : String
  intron_start : ℤ
  intron_end : ℤ
  replicates : List (Option ℚ)
deriving DecidableEq

/-- `df['exon_end'] = df['intron_start'] - 1`. -/
def exon_end (r : LCIntron) : ℤ := r.intron_start - 1

/-- `df['exon_start'] = df['intron_end'] + 1`. -/
def exon_start (r : LCIntron) : ℤ := r.intron_end + 1

/-- `df['average_psi'] = df[sample_columns].mean(axis=1, skipna=True)`. -/
def average_psi (r : LCIntron) : Option ℚ := meanSkipNA r.replicates

/-- Accumulator key `(cluster_id, position, type)`. -/
abbrev ClusterKey := String × ℤ × String

/-- One accumulator entry: running PSI plus the metadata recorded when
the key was first inserted. -/
structure SiteAcc where
  psi : Option ℚ
  intron_info : String
  chromosome : String
  strand : String
deriving DecidableEq

/-- Dict lookup on the association-list embedding. -/
def accLookup : List (ClusterKey × SiteAcc) → ClusterKey → Option SiteAcc
  | [], _ => none
  | p :: rest, k => if p.1 = k then some p.2 else accLookup rest k

/-- `position_accumulator[key]['psi'] += average_psi` on every entry with
the given key (the key itself is untouched). -/
def accAddTo (m : List (ClusterKey × SiteAcc)) (k : ClusterKey)
    (v : Option ℚ) : List (ClusterKey × SiteAcc) :=
  m.map fun p =>
    (p.1, if p.1 = k then { p.2 with psi := optAdd p.2.psi v } else p.2)

/-- One `if key not in dict: insert {psi: 0, …}` followed by
`dict[key]['psi'] += average_psi`. -/
def accUpsert (m : List (ClusterKey × SiteAcc)) (k : ClusterKey)
    (r : LCIntron) (v : Option ℚ) : List (ClusterKey × SiteAcc) :=
  if (accLookup m k).isSome then accAddTo m k v
  else accAddTo (m ++ [(k, ⟨some 0, r.intron_info, r.chromosome, r.strand⟩)]) k v

/-- The two dict updates performed for one intron row: first the
`exon_start` boundary, then the `exon_end` boundary. -/
def lc_step (m : List (ClusterKey × SiteAcc)) (r : LCIntron) :
    List (ClusterKey × SiteAcc) :=
  accUpsert
    (accUpsert m (r.cluster_id, exon_start r, "exon_start") r (average_psi r))
    (r.cluster_id, exon_end r, "exon_end") r (average_psi r)

/-- The accumulation loop of `process_leafcutter_data` over all intron
rows. -/
def process_leafcutter_data (rows : List LCIntron) :
    List (ClusterKey × SiteAcc) :=
  rows.foldl lc_step []

/-- One row of `summed_position_df`, the adapter's normalized output. -/
structure LCOutRow where
  cluster_id : String
  position : ℤ
  type : String
  psi : Option ℚ
  intron_info : String
  chromosome : String
  strand : String
deriving DecidableEq

/-- `summed_position_df`: one output row per accumulator entry, in dict
insertion order.  This is what `process_leafcutter_data` writes to its
output CSV. -/
def lc_output (rows : List LCIntron) : List LCOutRow :=
  (process_leafcutter_data rows).map fun p =>
    ⟨p.1.1, p.1.2.1, p.1.2.2, p.2.psi, p.2.intron_info, p.2.chromosome,
      p.2.strand⟩

/-- Whether an intron row contributes to a given accumulator key. -/
def contributes (k : ClusterKey) (r : LCIntron) : Bool :=
  k.1 == r.cluster_id &&
    ((k.2.2 == "exon_start" && k.2.1 == exon_start r) ||
     (k.2.2 == "exon_end" && k.2.1 == exon_end r))

/-- The key an intron's `exon_start` boundary lands on. -/
def keyStart (r : LCIntron) : ClusterKey :=
  (r.cluster_id, exon_start r, "exon_start")

/-- The key an intron's `exon_end` boundary lands on. -/
def keyEnd (r : LCIntron) : ClusterKey :=
  (r.cluster_id, exon_end r, "exon_end")

theorem contributes_iff (k : ClusterKey) (r : LCIntron) :
    contributes k r = true ↔ k = keyStart r ∨ k = keyEnd r := by
  obtain ⟨k1, k2, k3⟩ := k
  simp only [contributes, keyStart, keyEnd, Bool.and_eq_true, Bool.or_eq_true,
    beq_iff_eq, Prod.mk.injEq]
  tauto

/-- The running PSI at a key, `none` (outer) when the key is absent. -/
def psiAt (m : List (ClusterKey × SiteAcc)) (k : ClusterKey) :
    Option (Option ℚ) :=
  (accLookup m k).map (·.psi)

theorem accLookup_cons (p : ClusterKey × SiteAcc)
    (rest : List (ClusterKey × SiteAcc)) (k : ClusterKey) :
    accLookup (p :: rest) k = if p.1 = k then some p.2 else accLookup rest k :=
  rfl

theorem accLookup_addTo (m : List (ClusterKey × SiteAcc)) (k k' : ClusterKey)
    (v : Option ℚ) :
    accLookup (accAddTo m k v) k' =
      if k' = k then
        (accLookup m k').map fun a => { a with psi := optAdd a.psi v }
      else accLookup m k' := by
  induction m with
  | nil => by_cases h : k' = k <;> simp [accAddTo, accLookup, h]
  | cons p rest ih =>
    simp only [accAddTo, List.map_cons] at ih ⊢
    simp only [accLookup_cons]
    by_cases h3 : k' = k
    · subst h3
      by_cases h2 : p.1 = k'
      · simp [h2]
      · simp [h2, ih]
    · by_cases h2 : p.1 = k'
      · simp [h2, h3, show ¬(p.1 = k) from fun hh => h3 (h2.symm.trans hh)]
      · simp [h2, h3, ih]

theorem accLookup_append (m1 m2 : List (ClusterKey × SiteAcc))
    (k : ClusterKey) :
    accLookup (m1 ++ m2) k =
      match accLookup m1 k with
      | some a => some a
      | none => accLookup m2 k := by
  induction m1 with
  | nil => simp [accLookup]
  | cons p rest ih =>
    rw [List.cons_append, accLookup_cons, accLookup_cons]
    by_cases h : p.1 = k
    · rw [if_pos h, if_pos h]
    · rw [if_neg h, if_neg h, ih]

theorem accLookup_mem {m : List (ClusterKey × SiteAcc)} {k : ClusterKey}
    {a : SiteAcc} (h : accLookup m k = some a) : (k, a) ∈ m := by
  induction m with
  | nil => simp [accLookup] at h
  | cons p rest ih =>
    rw [accLookup_cons] at h
    by_cases hk : p.1 = k
    · rw [if_pos hk] at h
      obtain rfl := Option.some.inj h
      have : p = (k, p.2) := by
        rw [← hk]
      rw [← this]
      exact List.mem_cons_self _ _
    · rw [if_neg hk] at h
      exact List.mem_cons_of_mem _ (ih h)

theorem psiAt_upsert (m : List (ClusterKey × SiteAcc)) (k : ClusterKey)
    (r : LCIntron) (v : Option ℚ) (k' : ClusterKey) :
    psiAt (accUpsert m k r v) k' =
      if k' = k then some (optAdd ((psiAt m k).getD (some 0)) v)
      else psiAt m k' := by
  unfold accUpsert psiAt
  cases hse : accLookup m k with
  | some a =>
    rw [if_pos (show (some a).isSome = true from rfl)]
    rw [accLookup_addTo]
    by_cases h : k' = k
    · rw [if_pos h, if_pos h, h, hse]
      rfl
    · rw [if_neg h, if_neg h]
  | none =>
    rw [if_neg (show ¬(none : Option SiteAcc).isSome = true by simp)]
    rw [accLookup_addTo]
    by_cases h : k' = k
    · rw [if_pos h, if_pos h, h]
      rw [accLookup_append, hse]
      rw [show (match (none : Option SiteAcc) with
        | some a => some a
        | none => accLookup [(k, ⟨some 0, r.intron_info, r.chromosome,
            r.strand⟩)] k)
        = accLookup [(k, ⟨some 0, r.intron_info, r.chromosome, r.strand⟩)] k
        from rfl]
      rw [accLookup_cons, if_pos rfl]
      rfl
    · rw [if_neg h, if_neg h]
      rw [accLookup_append]
      cases hse' : accLookup m k' with
      | some a => rfl
      | none =>
        rw [show (match (none : Option SiteAcc) with
          | some a => some a
          | none => accLookup [(k, ⟨some 0, r.intron_info, r.chromosome,
              r.strand⟩)] k')
          = accLookup [(k, ⟨some 0, r.intron_info, r.chromosome,
              r.strand⟩)] k' from rfl]
        rw [accLookup_cons, if_neg (fun hh : k = k' => h hh.symm)]
        rfl

theorem keyStart_ne_keyEnd (r s : LCIntron) : keyStart r ≠ keyEnd s := by
  intro h
  have : ("exon_start" : String) = "exon_end" := congrArg (·.2.2) h
  exact absurd this (by decide)

theorem psiAt_step (m : List (ClusterKey × SiteAcc)) (r : LCIntron)
    (k : ClusterKey) :
    psiAt (lc_step m r) k =
      if contributes k r then
        some (optAdd ((psiAt m k).getD (some 0)) (average_psi r))
      else psiAt m k := by
  unfold lc_step
  rw [show (r.cluster_id, exon_end r, "exon_end") = keyEnd r from rfl,
    show (r.cluster_id, exon_start r, "exon_start") = keyStart r from rfl]
  rw [psiAt_upsert]
  by_cases hend : k = keyEnd r
  · rw [if_pos hend]
    rw [psiAt_upsert,
      if_neg (show ¬keyEnd r = keyStart r from
        fun h => keyStart_ne_keyEnd r r h.symm)]
    rw [if_pos ((contributes_iff k r).mpr (Or.inr hend))]
    rw [hend]
  · rw [if_neg hend]
    rw [psiAt_upsert]
    by_cases hstart : k = keyStart r
    · rw [if_pos hstart, if_pos ((contributes_iff k r).mpr (Or.inl hstart))]
      rw [hstart]
    · rw [if_neg hstart]
      rw [if_neg (by
        intro hc
        rcases (contributes_iff k r).mp hc with h | h
        · exact hstart h
        · exact hend h)]

theorem psiAt_foldl (k : ClusterKey) :
    ∀ (rows : List LCIntron) (m : List (ClusterKey × SiteAcc)),
      psiAt (rows.foldl lc_step m) k =
        if (rows.filter (contributes k)).isEmpty then psiAt m k
        else some (((rows.filter (contributes k)).map average_psi).foldl
          optAdd ((psiAt m k).getD (some 0))) := by
  intro rows
  induction rows with
  | nil => intro m; simp
  | cons r rest ih =>
    intro m
    rw [List.foldl_cons, ih (lc_step m r), List.filter_cons]
    by_cases hc : contributes k r
    · rw [if_pos hc]
      have hstep : psiAt (lc_step m r) k =
          some (optAdd ((psiAt m k).getD (some 0)) (average_psi r)) := by
        rw [psiAt_step, if_pos hc]
      rw [hstep]
      rw [show ((r :: rest.filter (contributes k)).isEmpty) = false from rfl,
        if_neg Bool.false_ne_true]
      by_cases hrest : (rest.filter (contributes k)).isEmpty
      · rw [if_pos hrest, List.isEmpty_iff.mp hrest]
        simp
      · rw [if_neg hrest]
        simp only [List.map_cons, List.foldl_cons, Option.getD_some]
    · rw [if_neg hc]
      have hstep : psiAt (lc_step m r) k = psiAt m k := by
        rw [psiAt_step, if_neg hc]
      rw [hstep]

theorem foldl_optAdd_all_some :
    ∀ (l : List (Option ℚ)) (a : ℚ), (∀ x ∈ l, x ≠ none) →
      l.foldl optAdd (some a) = some (a + (l.filterMap id).sum) := by
  intro l
  induction l with
  | nil => intro a _; simp
  | cons x rest ih =>
    intro a h
    have hx : x ≠ none := h x (List.mem_cons_self _ _)
    obtain ⟨q, rfl⟩ := Option.ne_none_iff_exists'.mp hx
    rw [List.foldl_cons, show optAdd (some a) (some q) = some (a + q) from rfl,
      ih (a + q) (fun y hy => h y (List.mem_cons_of_mem _ hy))]
    simp [add_assoc]

/-- Intron A of the spec's accumulation example: `average_psi = 0.3`,
`exon_start` boundary at position 200 of cluster `clu_1`. -/
def introA : LCIntron :=
  ⟨"chr1:100:199:clu_1_+", "chr1", "+", "clu_1", 100, 199, [some (3/10)]⟩

/-- Intron B of the spec's accumulation example: `average_psi = 0.4`,
sharing the `exon_start` boundary at position 200 of cluster `clu_1`. -/
def introB : LCIntron :=
  ⟨"chr1:150:199:clu_1_+", "chr1", "+", "clu_1", 150, 199, [some (4/10)]⟩

/-- **C2**: the PSI accumulated for a key `(cluster_id, position,
boundary_type)` is the sum of `average_psi` over every intron contributing
that boundary at that position (stated for inputs where every contributing
intron has a defined average, which is when the claim's sum is defined);
in particular two introns of the same cluster with averages `0.3` and
`0.4` sharing the `exon_start` boundary at position 200 accumulate PSI
`0.7` for `(clu_1, 200, exon_start)`. -/
theorem C2_cluster_psi_summed :
    (∀ (rows : List LCIntron) (k : ClusterKey),
      rows.filter (contributes k) ≠ [] →
      (∀ r ∈ rows.filter (contributes k), average_psi r ≠ none) →
      ∃ a, accLookup (process_leafcutter_data rows) k = some a ∧
        (k, a) ∈ process_leafcutter_data rows ∧
        a.psi = some ((((rows.filter (contributes k)).map
          average_psi).filterMap id).sum)) ∧
    (∃ a, accLookup (process_leafcutter_data [introA, introB])
        ("clu_1", 200, "exon_start") = some a ∧
      a.psi = some (7/10)) := by
  have hgen : ∀ (rows : List LCIntron) (k : ClusterKey),
      rows.filter (contributes k) ≠ [] →
      (∀ r ∈ rows.filter (contributes k), average_psi r ≠ none) →
      ∃ a, accLookup (process_leafcutter_data rows) k = some a ∧
        (k, a) ∈ process_leafcutter_data rows ∧
        a.psi = some ((((rows.filter (contributes k)).map
          average_psi).filterMap id).sum) := by
    intro rows k hne hdef
    have hfold := psiAt_foldl k rows []
    have hbase : psiAt ([] : List (ClusterKey × SiteAcc)) k = none := rfl
    rw [hbase] at hfold
    rw [if_neg (by simpa [List.isEmpty_iff] using hne)] at hfold
    have hsum : ((rows.filter (contributes k)).map average_psi).foldl optAdd
        ((none : Option (Option ℚ)).getD (some 0)) =
        some (0 + (((rows.filter (contributes k)).map
          average_psi).filterMap id).sum) := by
      rw [Option.getD_none]
      exact foldl_optAdd_all_some _ 0 (by
        intro x hx
        obtain ⟨r, hr, rfl⟩ := List.mem_map.mp hx
        exact hdef r hr)
    rw [hsum, zero_add] at hfold
    unfold psiAt at hfold
    obtain ⟨a, ha, hpsi⟩ := Option.map_eq_some'.mp hfold
    exact ⟨a, ha, accLookup_mem ha, hpsi⟩
  refine ⟨hgen, ?_⟩
  obtain ⟨a, ha, _, hpsi⟩ := hgen [introA, introB] ("clu_1", 200, "exon_start")
    (by decide) (by decide)
  refine ⟨a, ha, ?_⟩
  rw [hpsi]
  have hfilter : [introA, introB].filter
      (contributes ("clu_1", 200, "exon_start")) = [introA, introB] := rfl
  rw [hfilter]
  have hmap : ([introA, introB].map average_psi).filterMap id
      = [(3/10 + 0) / ((1 : ℕ) : ℚ), (4/10 + 0) / ((1 : ℕ) : ℚ)] := rfl
  rw [hmap]
  norm_num

/-- Closed witness for the general clause of `C2_cluster_psi_summed`,
instantiated at the spec's two-intron example. -/
theorem C2_cluster_psi_summed_witness :
    ([introA, introB].filter
        (contributes ("clu_1", 200, "exon_start")) ≠ [] ∧
      ∀ r ∈ [introA, introB].filter (contributes ("clu_1", 200, "exon_start")),
        average_psi r ≠ none) ∧
    ∃ a, accLookup (process_leafcutter_data [introA, introB])
        ("clu_1", 200, "exon_start") = some a ∧
      (("clu_1", 200, "exon_start"), a) ∈
        process_leafcutter_data [introA, introB] ∧
      a.psi = some (((([introA, introB].filter
        (contributes ("clu_1", 200, "exon_start"))).map
          average_psi).filterMap id).sum) :=
  ⟨⟨by decide, by decide⟩,
    C2_cluster_psi_summed.1 [introA, introB] ("clu_1", 200, "exon_start")
      (by decide) (by decide)⟩

/-- The all-missing intron of claim C6: every replicate PSI is `NaN`, so
its `average_psi` is undefined; it shares the `exon_start` boundary at
position 200 of cluster `clu_1` with `introA`. -/
def introNaN : LCIntron :=
  ⟨"chr1:150:199:clu_1_+", "chr1", "+", "clu_1", 150, 199, [none, none]⟩

/-- **C6** (evidence of divergence): an intron whose replicates are all
missing has an undefined (`NaN`) average, yet `process_leafcutter_data`
still adds it into the accumulator — turning the shared key's PSI into
`NaN` instead of contributing nothing — and the key still appears in the
adapter's normalized output with an undefined PSI, which the spec says
must be excluded. -/
theorem C6_undefined_average_not_excluded :
    average_psi introNaN = none ∧
    (accLookup (process_leafcutter_data [introA, introNaN])
        ("clu_1", 200, "exon_start")).map (·.psi) = some none ∧
    ((lc_output [introA, introNaN]).filter fun rec =>
      rec.cluster_id == "clu_1" && rec.position == (200 : ℤ) &&
        rec.type == "exon_start") ≠ [] ∧
    ∀ rec ∈ (lc_output [introA, introNaN]).filter (fun rec =>
      rec.cluster_id == "clu_1" && rec.position == (200 : ℤ) &&
        rec.type == "exon_start"), rec.psi = none := by
  refine ⟨rfl, rfl, by decide, by decide⟩

/-! ## Thread-pool realization of the assembler

`process_splice_table` submits `process_row(idx, row, df)` for every row
to a `ThreadPoolExecutor` and writes each future's result back into the
cells of its own row index; the frame is then filtered and written in
index order.  The model below lets the per-index writes land in an
arbitrary completion order (a generalization of the source, which blocks
on futures in submission order) and shows the result coincides with the
sequential semantics for every completion order covering all indices. -/

/-- The pure value computed by the future submitted for row index `i`. -/
def futureResult (df : List Obs) (table : List SpliceRow) (i : ℕ) :
    String × String :=
  match table[i]? with
  | some r => process_row r df
  | none => (",", ",")

/-- Cell contents of the `positions`/`PSI` columns after the futures
listed in `order` have written their results, `none` where no write
landed (the cells still hold the initial empty strings). -/
def applyWrites (df : List Obs) (table : List SpliceRow) (order : List ℕ) :
    ℕ → Option (String × String) :=
  order.foldl
    (fun st i => fun j => if j = i then some (futureResult df table i) else st j)
    (fun _ => none)

/-- The threaded assembler: read the frame back in index order, taking
each row's written cells (empty strings where nothing was written), then
apply the final bare-comma filter. -/
def process_splice_table_threaded (df : List Obs) (table : List SpliceRow)
    (order : List ℕ) : List AnnotatedRow :=
  ((List.range table.length).filterMap fun i =>
    table[i]?.map fun r => (r, (applyWrites df table order i).getD ("", ""))).filter
    keepRow

/-- Serialization of one output row as a tab-separated line
(`to_csv(sep="\t", index=False, header=False)`). -/
def serializeRow (x : AnnotatedRow) : String :=
  String.intercalate "\t" [x.1.transcript_id, x.1.paralog_status, x.1.seqname,
    x.1.strand, x.1.tx_start, x.1.tx_end, x.1.exon_end_sites,
    x.1.exon_start_sites, x.2.1, x.2.2]

/-- Byte serialization of the output table: one line per row. -/
def serializeTable (rows : List AnnotatedRow) : String :=
  (rows.map fun r => serializeRow r ++ "\n").foldr (· ++ ·) ""

theorem applyWrites_foldl (df : List Obs) (table : List SpliceRow) :
    ∀ (order : List ℕ) (st : ℕ → Option (String × String)) (j : ℕ),
      order.foldl (fun st i => fun j =>
          if j = i then some (futureResult df table i) else st j) st j
        = if j ∈ order then some (futureResult df table j) else st j := by
  intro order
  induction order with
  | nil => intro st j; simp
  | cons i rest ih =>
    intro st j
    rw [List.foldl_cons, ih]
    by_cases hr : j ∈ rest
    · simp [hr]
    · by_cases hj : j = i
      · subst hj
        simp [hr]
      · simp [hr, hj, List.mem_cons]

theorem applyWrites_mem {df : List Obs} {table : List SpliceRow}
    {order : List ℕ} {i : ℕ} (h : i ∈ order) :
    applyWrites df table order i = some (futureResult df table i) := by
  rw [applyWrites, applyWrites_foldl, if_pos h]

theorem range_filterMap_getElem {α β : Type} (g : α → β) :
    ∀ l : List α,
      ((List.range l.length).filterMap fun i => l[i]?.map g) = l.map g := by
  intro l
  induction l with
  | nil => rfl
  | cons a l ih =>
    rw [List.length_cons, List.range_succ_eq_map, List.filterMap_cons,
      List.filterMap_map]
    have : ((a :: l)[0]?.map g) = some (g a) := by simp
    rw [this]
    have hcomp : ((fun i => (a :: l)[i]?.map g) ∘ Nat.succ)
        = fun i => l[i]?.map g := by
      funext i
      simp
    rw [hcomp, ih, List.map_cons]

theorem threaded_eq_sequential (df : List Obs) (table : List SpliceRow)
    (order : List ℕ) (h : ∀ i < table.length, i ∈ order) :
    process_splice_table_threaded df table order =
      process_splice_table df table := by
  unfold process_splice_table_threaded process_splice_table
  congr 1
  have hcongr : ∀ i ∈ List.range table.length,
      (table[i]?.map fun r => (r, (applyWrites df table order i).getD ("", "")))
        = table[i]?.map (annotateRow df) := by
    intro i hi
    have hilt : i < table.length := List.mem_range.mp hi
    rw [List.getElem?_eq_getElem hilt]
    rw [applyWrites_mem (h i hilt)]
    rw [futureResult, List.getElem?_eq_getElem hilt]
    rfl
  rw [List.filterMap_congr hcongr]
  exact range_filterMap_getElem (annotateRow df) table

/-- **C9**: the Splice Table Assembler is deterministic — on identical
observation and splice-table inputs, the threaded assembler produces the
same output rows, in the same order and with the same byte serialization,
for every pair of completion orders of the worker futures (in particular
independently of the thread count), and that output is the sequential
semantics. -/
theorem C9_assembler_deterministic (df : List Obs) (table : List SpliceRow)
    (o1 o2 : List ℕ) (h1 : o1.Perm (List.range table.length))
    (h2 : o2.Perm (List.range table.length)) :
    process_splice_table_threaded df table o1 =
      process_splice_table_threaded df table o2 ∧
    process_splice_table_threaded df table o1 = process_splice_table df table ∧
    serializeTable (process_splice_table_threaded df table o1) =
      serializeTable (process_splice_table_threaded df table o2) := by
  have hmem : ∀ (o : List ℕ), o.Perm (List.range table.length) →
      ∀ i < table.length, i ∈ o := by
    intro o ho i hi
    exact ho.mem_iff.mpr (List.mem_range.mpr hi)
  have e1 := threaded_eq_sequential df table o1 (hmem o1 h1)
  have e2 := threaded_eq_sequential df table o2 (hmem o2 h2)
  refine ⟨e1.trans e2.symm, e1, ?_⟩
  rw [e1, e2]

/-- Closed witness for `C9_assembler_deterministic`: a two-row table with
the two possible completion orders of the futures. -/
theorem C9_assembler_deterministic_witness :
    ([1, 0] : List ℕ).Perm (List.range
      ([SpliceRow.mk "T1" "0" "chr1" "+" "100" "500" "," ",",
        SpliceRow.mk "T2" "0" "chr1" "+" "600" "900" "," ","].length)) ∧
    process_splice_table_threaded [Obs.mk "chr1" 150 "0.2"]
        [SpliceRow.mk "T1" "0" "chr1" "+" "100" "500" "," ",",
         SpliceRow.mk "T2" "0" "chr1" "+" "600" "900" "," ","] [1, 0] =
      process_splice_table [Obs.mk "chr1" 150 "0.2"]
        [SpliceRow.mk "T1" "0" "chr1" "+" "100" "500" "," ",",
         SpliceRow.mk "T2" "0" "chr1" "+" "600" "900" "," ","] := by
  refine ⟨by decide, ?_⟩
  exact (C9_assembler_deterministic [Obs.mk "chr1" 150 "0.2"]
    [SpliceRow.mk "T1" "0" "chr1" "+" "100" "500" "," ",",
     SpliceRow.mk "T2" "0" "chr1" "+" "600" "900" "," ","]
    [1, 0] [0, 1] (by decide) (by decide)).2.1

/-- **C1**: for every transcript span `[tx_start, tx_end]` on a chromosome
and every observation table, the interval join returns exactly the
subsequence of observations whose chromosome equals the transcript's and
whose position lies inclusively between the bounds, preserving the
observation table's relative order; on the spec's worked example
(`tx_start=100`, `tx_end=500` on `chr1` against observations
`(chr1,150,0.2), (chr1,480,0.6), (chr1,900,0.9)`) the serialized result is
`positions="150,480,"` and `psi_values="0.2,0.6,"`. -/
theorem C1_interval_join_exact :
    (∀ (chrom : String) (s e : ℤ) (df : List Obs),
      matchingRows chrom (some s) (some e) df =
        df.filter (fun o =>
          o.chromosome == chrom && decide (s ≤ o.position) &&
            decide (o.position ≤ e)) ∧
      (matchingRows chrom (some s) (some e) df).Sublist df) ∧
    process_row
      { transcript_id := "T1", paralog_status := "0", seqname := "chr1",
        strand := "+", tx_start := "100", tx_end := "500",
        exon_end_sites := ",", exon_start_sites := "," }
      [⟨"chr1", 150, "0.2"⟩, ⟨"chr1", 480, "0.6"⟩, ⟨"chr1", 900, "0.9"⟩]
      = ("150,480,", "0.2,0.6,") := by
  refine ⟨fun chrom s e df => ⟨?_, ?_⟩, by decide⟩
  · rw [matchingRows_eq_filter]
    congr 1
  · rw [matchingRows_eq_filter]
    exact List.filter_sublist df

/-! ## Annotation Model Builder

From `src/make_splice_table.py` (`main`): primary-transcript selection by
APPRIS priority with end-descending/start-ascending tie-breaks, and
internal exon-boundary derivation with the comma-count filter. -/

/-- One parsed GTF record: the tab-separated columns plus the attributes
already extracted by `extract_attribute` (regex on `key "value"`), which
yields `None` for a missing key. -/
structure GtfRow where
  seqname : String
  source : String
  feature : String
  start : ℤ
  «end» : ℤ
  score : String
  strand : String
  frame : String
  gene_id : Option String
  transcript_id : Option String
  gene_name : Option String
  gene_type : Option String
  transcript_type : Option String
  tag : Option String
deriving DecidableEq

/-- Python `str(x)` on a possibly-`None` attribute (`str(None)` is the
text `None`), as applied by `'appris_principal_1' in str(x)`. -/
def pyStr : Option String → String
  | some s => s
  | none => "None"

/-- Whether the first character list is an initial segment of the
second. -/
def charsLeading : List Char → List Char → Bool
  | [], _ => true
  | _ :: _, [] => false
  | a :: as, b :: bs => a == b && charsLeading as bs

/-- Whether `pat` occurs as a contiguous run inside the character
list. -/
def charsContain (pat : List Char) : List Char → Bool
  | [] => charsLeading pat []
  | c :: rest => charsLeading pat (c :: rest) || charsContain pat rest

/-- Python substring containment `pat in s`. -/
def strContains (s pat : String) : Bool := charsContain pat.toList s.toList

/-- The APPRIS priority chain of `main`:
`1 if 'appris_principal_1' in str(x) else 2 if ... else 6`. -/
def appris_priority (tag : Option String) : ℕ :=
  if strContains (pyStr tag) "appris_principal_1" then 1
  else if strContains (pyStr tag) "appris_principal_2" then 2
  else if strContains (pyStr tag) "appris_principal_3" then 3
  else if strContains (pyStr tag) "appris_principal_4" then 4
  else if strContains (pyStr tag) "appris_principal_5" then 5
  else 6

/-- A missing `gene_id` sorts last (`sort_values` default
`na_position='last'` under ascending order), so `None` maps to `⊤`. -/
def optStrTop : Option String → WithTop String
  | some s => (s : WithTop String)
  | none => ⊤

/-- The full `sort_values(['gene_id', 'appris_priority', 'end', 'start'],
ascending=[True, True, False, True])` key, as a lexicographic tuple:
`end` descends via the order dual. -/
def gtfKey (r : GtfRow) : (WithTop String) ×ₗ (ℕ ×ₗ (ℤᵒᵈ ×ₗ ℤ)) :=
  toLex (optStrTop r.gene_id, toLex (appris_priority r.tag,
    toLex (OrderDual.toDual r.«end», r.start)))

/-- Strict comparison on possibly-missing gene ids with `None` last. -/
def optStrLt : Option String → Option String → Bool
  | none, _ => false
  | some _, none => true
  | some x, some y => decide (x < y)

/-- The boolean row comparator realizing the multi-column sort. -/
def gtfLe (a b : GtfRow) : Bool :=
  if a.gene_id = b.gene_id then
    if appris_priority a.tag = appris_priority b.tag then
      if a.«end» = b.«end» then decide (a.start ≤ b.start)
      else decide (b.«end» < a.«end»)
    else decide (appris_priority a.tag < appris_priority b.tag)
  else optStrLt a.gene_id b.gene_id

/-- `protein_coding_genes[... feature == 'transcript']`: the rows ranked
by the primary-transcript selection. -/
def protein_coding_transcripts (rows : List GtfRow) : List GtfRow :=
  rows.filter fun r =>
    r.gene_type == some "protein_coding" && r.feature == "transcript"

/-- The sorted frame
`primary_transcripts.sort_values([...], ascending=[T,T,F,T])`. -/
def primary_transcripts_sorted (rows : List GtfRow) : List GtfRow :=
  (protein_coding_transcripts rows).mergeSort gtfLe

/-- `groupby('gene_id').first()` read off for one gene: the first row of
the sorted frame carrying that gene id. -/
def select_primary_transcript (rows : List GtfRow) (g : String) :
    Option GtfRow :=
  (primary_transcripts_sorted rows).find? fun r => r.gene_id == some g

/-- The exon records grouped under one transcript id
(`gtf_data_parsed[feature == 'exon'].groupby('transcript_id')`). -/
def exonRowsOf (rows : List GtfRow) (tid : String) : List GtfRow :=
  rows.filter fun r => r.feature == "exon" && r.transcript_id == some tid

/-- `sorted(x)` over the group's `start` values (ascending). -/
def exon_start_sites (rows : List GtfRow) (tid : String) : List ℤ :=
  List.insertionSort (· ≤ ·) ((exonRowsOf rows tid).map (·.start))

/-- `sorted(x)` over the group's `end` values (ascending). -/
def exon_end_sites (rows : List GtfRow) (tid : String) : List ℤ :=
  List.insertionSort (· ≤ ·) ((exonRowsOf rows tid).map (·.«end»))

/-- `','.join(map(str, sorted(x)))`. -/
def serializeSites (l : List ℤ) : String := joinComma (l.map toString)

/-- `.str.count(',')`. -/
def commaCount (s : String) : ℕ := s.data.count ','

/-- The survival filter `exon_start_sites.str.count(',') >= 1` of
`main`. -/
def survives_boundary_filter (rows : List GtfRow) (tid : String) : Bool :=
  decide (1 ≤ commaCount (serializeSites (exon_start_sites rows tid)))

/-- `','.join(x.split(',')[1:]) + ','` drops the first token of the
comma-joined sorted starts; on comma-free integer tokens that is exactly
dropping the first sorted start. -/
def internal_exon_starts (rows : List GtfRow) (tid : String) : List ℤ :=
  (exon_start_sites rows tid).drop 1

/-- `','.join(x.split(',')[:-1]) + ','` drops the last token of the
comma-joined sorted ends; on comma-free integer tokens that is exactly
dropping the last sorted end. -/
def internal_exon_ends (rows : List GtfRow) (tid : String) : List ℤ :=
  (exon_end_sites rows tid).dropLast

theorem optStrTop_inj (x y : Option String) :
    optStrTop x = optStrTop y ↔ x = y := by
  cases x <;> cases y <;> simp [optStrTop]

theorem optStrLt_iff (x y : Option String) :
    optStrLt x y = true ↔ optStrTop x < optStrTop y := by
  cases x <;> cases y <;>
    simp [optStrLt, optStrTop, WithTop.coe_lt_top, not_top_lt,
      WithTop.coe_lt_coe]

theorem gtfLe_iff (a b : GtfRow) : gtfLe a b = true ↔ gtfKey a ≤ gtfKey b := by
  unfold gtfLe gtfKey
  rw [Prod.Lex.le_iff]
  by_cases hg : a.gene_id = b.gene_id
  · rw [if_pos hg]
    have h1 : optStrTop a.gene_id = optStrTop b.gene_id := by rw [hg]
    rw [h1]
    simp only [lt_irrefl, false_or, true_and]
    rw [Prod.Lex.le_iff]
    by_cases hp : appris_priority a.tag = appris_priority b.tag
    · rw [if_pos hp, hp]
      simp only [lt_irrefl, false_or, true_and]
      rw [Prod.Lex.le_iff]
      by_cases he : a.«end» = b.«end»
      · rw [if_pos he, he]
        simp [lt_irrefl]
      · rw [if_neg he]
        simp [OrderDual.toDual_lt_toDual, OrderDual.toDual_inj, he]
    · rw [if_neg hp]
      simp [hp]
  · rw [if_neg hg]
    rw [optStrLt_iff]
    simp [optStrTop_inj, hg]

theorem gtfLe_refl (a : GtfRow) : gtfLe a a = true := by
  rw [gtfLe_iff]

theorem gtfLe_trans (a b c : GtfRow) (hab : gtfLe a b = true)
    (hbc : gtfLe b c = true) : gtfLe a c = true := by
  rw [gtfLe_iff] at hab hbc ⊢
  exact le_trans hab hbc

theorem gtfLe_total (a b : GtfRow) : (gtfLe a b || gtfLe b a) = true := by
  simp only [Bool.or_eq_true, gtfLe_iff]
  exact le_total _ _

theorem find?_first_of_pairwise {α : Type} {le : α → α → Bool}
    {p : α → Bool} (hrefl : ∀ a, le a a = true) :
    ∀ {l : List α}, l.Pairwise (fun a b => le a b = true) → ∀ {x : α},
      l.find? p = some x → ∀ u ∈ l, p u = true → le x u = true := by
  intro l
  induction l with
  | nil =>
    intro _ x hx
    simp at hx
  | cons a rest ih =>
    intro hpair x hfind u hu hpu
    rcases List.mem_cons.mp hu with rfl | hu
    · rw [List.find?_cons_of_pos _ hpu] at hfind
      obtain rfl := Option.some.inj hfind
      exact hrefl u
    · by_cases hpa : p a = true
      · rw [List.find?_cons_of_pos _ hpa] at hfind
        obtain rfl := Option.some.inj hfind
        exact List.rel_of_pairwise_cons hpair hu
      · rw [List.find?_cons_of_neg _ hpa] at hfind
        exact ih hpair.of_cons hfind u hu hpu

theorem gtfLe_same_gene {p u : GtfRow} (hgp : p.gene_id = u.gene_id)
    (h : gtfLe p u = true) :
    appris_priority p.tag < appris_priority u.tag ∨
      (appris_priority p.tag = appris_priority u.tag ∧
        (u.«end» < p.«end» ∨ (p.«end» = u.«end» ∧ p.start ≤ u.start))) := by
  rw [gtfLe_iff] at h
  unfold gtfKey at h
  rw [Prod.Lex.le_iff] at h
  rcases h with h | ⟨_, h⟩
  · rw [show optStrTop p.gene_id = optStrTop u.gene_id by rw [hgp]] at h
    exact absurd h (lt_irrefl _)
  · rw [Prod.Lex.le_iff] at h
    rcases h with h | ⟨hpeq, h⟩
    · exact Or.inl h
    · rw [Prod.Lex.le_iff] at h
      rcases h with h | ⟨heq, hs⟩
      · exact Or.inr ⟨hpeq, Or.inl (OrderDual.toDual_lt_toDual.mp h)⟩
      · exact Or.inr ⟨hpeq,
          Or.inr ⟨OrderDual.toDual_inj.mp heq, hs⟩⟩

theorem commaCount_intToString (i : ℤ) : commaCount (toString i) = 0 :=
  List.count_eq_zero.mpr fun hmem => intRepr_ne_comma i ',' hmem rfl

theorem commaCount_serializeSites (l : List ℤ) :
    commaCount (serializeSites l) = l.length - 1 := by
  induction l with
  | nil => rfl
  | cons x l ih =>
    cases l with
    | nil =>
      show commaCount (joinComma [toString x]) = 0
      exact commaCount_intToString x
    | cons y ls =>
      show commaCount (toString x ++ "," ++
        joinComma (toString y :: ls.map toString)) = _
      unfold commaCount
      rw [String.data_append, String.data_append, List.count_append,
        List.count_append]
      have h1 : (toString x).data.count ',' = 0 := commaCount_intToString x
      have h2 : ("," : String).data.count ',' = 1 := rfl
      have h3 : (joinComma (toString y :: ls.map toString)).data.count ','
          = (y :: ls).length - 1 := ih
      rw [h1, h2, h3]
      simp only [List.length_cons]
      omega

/-- **C4**: among a gene's protein-coding transcript records, exactly one
is selected as primary: the selection returns a single row of that gene,
and it is rank-1 under the ranking by APPRIS priority ascending (tags
containing `appris_principal_1..5` mapping to priorities `1..5`, anything
else to `6`), ties broken by transcript end descending then start
ascending. -/
theorem C4_primary_transcript_selection (rows : List GtfRow) (g : String)
    (t : GtfRow) (ht : t ∈ rows) (htype : t.gene_type = some "protein_coding")
    (hfeat : t.feature = "transcript") (hgene : t.gene_id = some g) :
    ∃ p, select_primary_transcript rows g = some p ∧
      p ∈ rows ∧ p.gene_type = some "protein_coding" ∧
      p.feature = "transcript" ∧ p.gene_id = some g ∧
      ∀ u ∈ rows, u.gene_type = some "protein_coding" →
        u.feature = "transcript" → u.gene_id = some g →
        (appris_priority p.tag < appris_priority u.tag ∨
          (appris_priority p.tag = appris_priority u.tag ∧
            (u.«end» < p.«end» ∨
              (p.«end» = u.«end» ∧ p.start ≤ u.start)))) := by
  have htf : t ∈ protein_coding_transcripts rows :=
    List.mem_filter.mpr ⟨ht, by simp [htype, hfeat]⟩
  have hts : t ∈ primary_transcripts_sorted rows :=
    (List.mergeSort_perm (protein_coding_transcripts rows) gtfLe).mem_iff.mpr
      htf
  have hsome : ((primary_transcripts_sorted rows).find? fun r =>
      r.gene_id == some g).isSome := by
    rw [List.find?_isSome]
    exact ⟨t, hts, by simp [hgene]⟩
  obtain ⟨p, hp⟩ := Option.isSome_iff_exists.mp hsome
  have hpg : p.gene_id = some g := by
    have := List.find?_some hp
    simpa using this
  have hpmem : p ∈ protein_coding_transcripts rows :=
    (List.mergeSort_perm (protein_coding_transcripts rows) gtfLe).mem_iff.mp
      (List.mem_of_find?_eq_some hp)
  obtain ⟨hprows, hppred⟩ := List.mem_filter.mp hpmem
  have hptype : p.gene_type = some "protein_coding" := by
    simp only [Bool.and_eq_true, beq_iff_eq] at hppred
    exact hppred.1
  have hpfeat : p.feature = "transcript" := by
    simp only [Bool.and_eq_true, beq_iff_eq] at hppred
    exact hppred.2
  refine ⟨p, hp, hprows, hptype, hpfeat, hpg, ?_⟩
  intro u hu hutype hufeat hugene
  have huf : u ∈ protein_coding_transcripts rows :=
    List.mem_filter.mpr ⟨hu, by simp [hutype, hufeat]⟩
  have hus : u ∈ primary_transcripts_sorted rows :=
    (List.mergeSort_perm (protein_coding_transcripts rows) gtfLe).mem_iff.mpr
      huf
  have hpair := List.sorted_mergeSort gtfLe_trans gtfLe_total
    (protein_coding_transcripts rows)
  have hle : gtfLe p u = true :=
    find?_first_of_pairwise gtfLe_refl hpair hp u hus (by simp [hugene])
  exact gtfLe_same_gene (hpg.trans hugene.symm) hle

/-- Closed witness for `C4_primary_transcript_selection`: a gene with a
priority-2 transcript listed before its priority-1 transcript. -/
theorem C4_primary_transcript_selection_witness :
    (GtfRow.mk "chr1" "HAVANA" "transcript" 100 900 "." "+" "."
        (some "G1") (some "TX1") (some "GENE1") (some "protein_coding")
        (some "protein_coding") (some "appris_principal_1") ∈
      [GtfRow.mk "chr1" "HAVANA" "transcript" 50 800 "." "+" "."
          (some "G1") (some "TX2") (some "GENE1") (some "protein_coding")
          (some "protein_coding") (some "appris_principal_2"),
        GtfRow.mk "chr1" "HAVANA" "transcript" 100 900 "." "+" "."
          (some "G1") (some "TX1") (some "GENE1") (some "protein_coding")
          (some "protein_coding") (some "appris_principal_1")]) ∧
    ∃ p, select_primary_transcript
        [GtfRow.mk "chr1" "HAVANA" "transcript" 50 800 "." "+" "."
            (some "G1") (some "TX2") (some "GENE1") (some "protein_coding")
            (some "protein_coding") (some "appris_principal_2"),
          GtfRow.mk "chr1" "HAVANA" "transcript" 100 900 "." "+" "."
            (some "G1") (some "TX1") (some "GENE1") (some "protein_coding")
            (some "protein_coding") (some "appris_principal_1")] "G1"
        = some p ∧
      p ∈ [GtfRow.mk "chr1" "HAVANA" "transcript" 50 800 "." "+" "."
          (some "G1") (some "TX2") (some "GENE1") (some "protein_coding")
          (some "protein_coding") (some "appris_principal_2"),
        GtfRow.mk "chr1" "HAVANA" "transcript" 100 900 "." "+" "."
          (some "G1") (some "TX1") (some "GENE1") (some "protein_coding")
          (some "protein_coding") (some "appris_principal_1")] ∧
      p.gene_type = some "protein_coding" ∧ p.feature = "transcript" ∧
      p.gene_id = some "G1" ∧
      ∀ u ∈ [GtfRow.mk "chr1" "HAVANA" "transcript" 50 800 "." "+" "."
          (some "G1") (some "TX2") (some "GENE1") (some "protein_coding")
          (some "protein_coding") (some "appris_principal_2"),
        GtfRow.mk "chr1" "HAVANA" "transcript" 100 900 "." "+" "."
          (some "G1") (some "TX1") (some "GENE1") (some "protein_coding")
          (some "protein_coding") (some "appris_principal_1")],
        u.gene_type = some "protein_coding" → u.feature = "transcript" →
        u.gene_id = some "G1" →
        (appris_priority p.tag < appris_priority u.tag ∨
          (appris_priority p.tag = appris_priority u.tag ∧
            (u.«end» < p.«end» ∨
              (p.«end» = u.«end» ∧ p.start ≤ u.start)))) :=
  ⟨by decide,
    C4_primary_transcript_selection _ "G1" _
      (List.mem_cons_of_mem _ (List.mem_cons_self _ _)) rfl rfl rfl⟩

/-- **C5**: a transcript surviving the comma-count filter has internal
exon boundary lists of equal length and both nonempty — the boundaries
are the sorted exon starts with the first dropped and the sorted exon
ends with the last dropped, and the filter passes exactly the transcripts
with at least two exon records. -/
theorem C5_internal_exon_boundaries (rows : List GtfRow) (tid : String)
    (hs : survives_boundary_filter rows tid = true) :
    (internal_exon_starts rows tid).length =
      (internal_exon_ends rows tid).length ∧
    internal_exon_starts rows tid ≠ [] ∧
    internal_exon_ends rows tid ≠ [] ∧
    2 ≤ (exonRowsOf rows tid).length := by
  have hcount : (1 : ℕ) ≤
      commaCount (serializeSites (exon_start_sites rows tid)) :=
    of_decide_eq_true hs
  rw [commaCount_serializeSites] at hcount
  have hslen : (exon_start_sites rows tid).length =
      (exonRowsOf rows tid).length := by
    unfold exon_start_sites
    rw [(List.perm_insertionSort _ _).length_eq, List.length_map]
  have helen : (exon_end_sites rows tid).length =
      (exonRowsOf rows tid).length := by
    unfold exon_end_sites
    rw [(List.perm_insertionSort _ _).length_eq, List.length_map]
  have hn : 2 ≤ (exonRowsOf rows tid).length := by omega
  have h1 : (internal_exon_starts rows tid).length =
      (exonRowsOf rows tid).length - 1 := by
    unfold internal_exon_starts
    rw [List.length_drop, hslen]
  have h2 : (internal_exon_ends rows tid).length =
      (exonRowsOf rows tid).length - 1 := by
    unfold internal_exon_ends
    rw [List.length_dropLast, helen]
  refine ⟨by omega, ?_, ?_, hn⟩
  · rw [← List.length_pos]
    omega
  · rw [← List.length_pos]
    omega

/-- Closed witness for `C5_internal_exon_boundaries`: a two-exon
transcript survives the filter and keeps one internal start and one
internal end. -/
theorem C5_internal_exon_boundaries_witness :
    survives_boundary_filter
      [GtfRow.mk "chr1" "HAVANA" "exon" 100 200 "." "+" "." (some "G1")
          (some "T1") (some "GENE1") (some "protein_coding")
          (some "protein_coding") none,
        GtfRow.mk "chr1" "HAVANA" "exon" 300 400 "." "+" "." (some "G1")
          (some "T1") (some "GENE1") (some "protein_coding")
          (some "protein_coding") none] "T1" = true ∧
    (internal_exon_starts
      [GtfRow.mk "chr1" "HAVANA" "exon" 100 200 "." "+" "." (some "G1")
          (some "T1") (some "GENE1") (some "protein_coding")
          (some "protein_coding") none,
        GtfRow.mk "chr1" "HAVANA" "exon" 300 400 "." "+" "." (some "G1")
          (some "T1") (some "GENE1") (some "protein_coding")
          (some "protein_coding") none] "T1").length =
    (internal_exon_ends
      [GtfRow.mk "chr1" "HAVANA" "exon" 100 200 "." "+" "." (some "G1")
          (some "T1") (some "GENE1") (some "protein_coding")
          (some "protein_coding") none,
        GtfRow.mk "chr1" "HAVANA" "exon" 300 400 "." "+" "." (some "G1")
          (some "T1") (some "GENE1") (some "protein_coding")
          (some "protein_coding") none] "T1").length :=
  ⟨by decide,
    (C5_internal_exon_boundaries _ "T1" (by decide)).1⟩

/-- **C3**: for every A5SS event row, the extractor emits exactly the
three records (inclusion donor, inclusion acceptor, skip acceptor) and no
others; on the `+` strand, the inclusion donor at the long-exon start
carries PSI exactly `1` regardless of the computed `psi_1`, the inclusion
acceptor keeping `psi_1` and the skip acceptor `skip_psi_1`; on the `-`
strand, the inclusion acceptor at the long-exon end carries PSI exactly
`1`, the other two boundaries keeping their computed values. -/
theorem C3_a5ss_strand_forced_psi (rows : List A5Row) (r : A5Row)
    (hr : r ∈ rows) :
    (a5ss_donor_row r ∈ extract_splice_sites_A5SS rows ∧
     a5ss_acceptor_incl_row r ∈ extract_splice_sites_A5SS rows ∧
     a5ss_acceptor_skip_row r ∈ extract_splice_sites_A5SS rows) ∧
    (∀ x ∈ extract_splice_sites_A5SS rows, ∃ u ∈ rows,
      x = a5ss_donor_row u ∨ x = a5ss_acceptor_incl_row u ∨
        x = a5ss_acceptor_skip_row u) ∧
    (r.strand = "+" →
      (a5ss_donor_row r).psi_1 = some 1 ∧
      (a5ss_donor_row r).splice_site = r.longExonStart_0base ∧
      (a5ss_acceptor_incl_row r).psi_1 = psi_1 r ∧
      (a5ss_acceptor_skip_row r).psi_1 = skip_psi_1 r) ∧
    (r.strand = "-" →
      (a5ss_acceptor_incl_row r).psi_1 = some 1 ∧
      (a5ss_acceptor_incl_row r).splice_site = r.longExonEnd ∧
      (a5ss_donor_row r).psi_1 = psi_1 r ∧
      (a5ss_acceptor_skip_row r).psi_1 = skip_psi_1 r) := by
  refine ⟨⟨?_, ?_, ?_⟩, ?_, ?_, ?_⟩
  · exact List.mem_append_left _
      (List.mem_append_left _ (List.mem_map.mpr ⟨r, hr, rfl⟩))
  · exact List.mem_append_left _
      (List.mem_append_right _ (List.mem_map.mpr ⟨r, hr, rfl⟩))
  · exact List.mem_append_right _ (List.mem_map.mpr ⟨r, hr, rfl⟩)
  · intro x hx
    rcases List.mem_append.mp hx with hx' | hx'
    · rcases List.mem_append.mp hx' with hx'' | hx''
      · obtain ⟨u, hu, rfl⟩ := List.mem_map.mp hx''
        exact ⟨u, hu, Or.inl rfl⟩
      · obtain ⟨u, hu, rfl⟩ := List.mem_map.mp hx''
        exact ⟨u, hu, Or.inr (Or.inl rfl)⟩
    · obtain ⟨u, hu, rfl⟩ := List.mem_map.mp hx'
      exact ⟨u, hu, Or.inr (Or.inr rfl)⟩
  · intro h
    refine ⟨?_, rfl, ?_, rfl⟩
    · simp [a5ss_donor_row, h]
    · simp [a5ss_acceptor_incl_row, h]
  · intro h
    refine ⟨?_, rfl, ?_, rfl⟩
    · simp [a5ss_acceptor_incl_row, h]
    · simp [a5ss_donor_row, h]

/-- Closed witness for `C3_a5ss_strand_forced_psi`: a single `+`-strand
A5SS event with computed inclusion level `1/2`; the donor PSI is
nevertheless exactly `1`. -/
theorem C3_a5ss_strand_forced_psi_witness :
    (A5Row.mk "1" "GENE1" "chr1" "+" 100 200 150 180 [some (1/2)] 0 ∈
      [A5Row.mk "1" "GENE1" "chr1" "+" 100 200 150 180 [some (1/2)] 0]) ∧
    ((A5Row.mk "1" "GENE1" "chr1" "+" 100 200 150 180 [some (1/2)]
        0).strand = "+" →
      (a5ss_donor_row (A5Row.mk "1" "GENE1" "chr1" "+" 100 200 150 180
        [some (1/2)] 0)).psi_1 = some 1 ∧
      (a5ss_donor_row (A5Row.mk "1" "GENE1" "chr1" "+" 100 200 150 180
        [some (1/2)] 0)).splice_site = 100 ∧
      (a5ss_acceptor_incl_row (A5Row.mk "1" "GENE1" "chr1" "+" 100 200 150
        180 [some (1/2)] 0)).psi_1 =
        psi_1 (A5Row.mk "1" "GENE1" "chr1" "+" 100 200 150 180
          [some (1/2)] 0) ∧
      (a5ss_acceptor_skip_row (A5Row.mk "1" "GENE1" "chr1" "+" 100 200 150
        180 [some (1/2)] 0)).psi_1 =
        skip_psi_1 (A5Row.mk "1" "GENE1" "chr1" "+" 100 200 150 180
          [some (1/2)] 0)) :=
  ⟨List.mem_cons_self _ _,
    (C3_a5ss_strand_forced_psi
      [A5Row.mk "1" "GENE1" "chr1" "+" 100 200 150 180 [some (1/2)] 0]
      (A5Row.mk "1" "GENE1" "chr1" "+" 100 200 150 180 [some (1/2)] 0)
      (List.mem_cons_self _ _)).2.2.1⟩

/-- **C10**: the spliser assembler reads the splice table with an
inferred header (`pd.read_csv(..., sep='\t')`, unlike the
`header=None` reads of the LeafCutter/rMATS assemblers), so the first
record of a non-empty table is consumed as column names: the output is
exactly the processing of the tail, every output row comes from the tail,
and when the first record's transcript id occurs nowhere else it never
appears in the output. -/
theorem C10_spliser_header_consumes_first_row (clean : List SpliserSite)
    (r : SpRow) (rest : List SpRow)
    (hid : ∀ u ∈ rest, u.transcript_id ≠ r.transcript_id) :
    spliser_main clean (r :: rest) = spliser_assemble clean rest ∧
    (∀ x ∈ spliser_main clean (r :: rest), x.1 ∈ rest) ∧
    (∀ x ∈ spliser_main clean (r :: rest),
      x.1.transcript_id ≠ r.transcript_id) := by
  refine ⟨rfl, ?_, ?_⟩
  · intro x hx
    unfold spliser_main spliser_assemble at hx
    obtain ⟨hx1, _⟩ := List.mem_filter.mp hx
    obtain ⟨u, hu, rfl⟩ := List.mem_map.mp hx1
    exact hu
  · intro x hx
    unfold spliser_main spliser_assemble at hx
    obtain ⟨hx1, _⟩ := List.mem_filter.mp hx
    obtain ⟨u, hu, rfl⟩ := List.mem_map.mp hx1
    exact hid u hu

/-- Closed witness for `C10_spliser_header_consumes_first_row`: a
two-record table whose first record (`T1`) is consumed as the header and
never reaches the output. -/
theorem C10_spliser_header_consumes_first_row_witness :
    (∀ u ∈ [SpRow.mk "T2" "0" "chr1" "+" 600 900 "," ","],
      u.transcript_id ≠
        (SpRow.mk "T1" "0" "chr1" "+" 100 500 "," ",").transcript_id) ∧
    (∀ x ∈ spliser_main []
        (SpRow.mk "T1" "0" "chr1" "+" 100 500 "," "," ::
          [SpRow.mk "T2" "0" "chr1" "+" 600 900 "," ","]),
      x.1.transcript_id ≠
        (SpRow.mk "T1" "0" "chr1" "+" 100 500 "," ",").transcript_id) :=
  ⟨by decide,
    (C10_spliser_header_consumes_first_row []
      (SpRow.mk "T1" "0" "chr1" "+" 100 500 "," ",")
      [SpRow.mk "T2" "0" "chr1" "+" 600 900 "," ","] (by decide)).2.2⟩

end SpliceQuant
